import Mathlib

/-!
Verification of the `ReadWrite` socket, the `Event` type and the host service
contract of the `enet` crate (files `src/read_write.rs`, `src/event.rs`,
`examples/server.rs`), against the crate's natural-language specification.

Bytes are modelled as `Nat`, byte buffers as `List Nat`, `VecDeque` as `List`
(front of the deque = head of the list), and Rust `Result<T, E>` as
`Except E T`.  The stateful methods of `ReadWrite` become pure functions that
return their result together with the updated state (and updated caller
buffer, for `receive`).
-/

/-- Modelled from the spec: `MTU_MAX` is declared in the crate outside the
given sources; the spec fixes the hard MTU ceiling at 4096 ("Default MTU 1400,
hard MTU ceiling 4096"). -/
def MTU_MAX : Nat := 4096

/-- Modelled from the spec: the `PacketReceived` type of the `Socket`
capability is declared outside the given sources.  Per the spec,
"`PacketReceived` is either `Complete(n)` (full datagram fits) or ` Partial`
(datagram truncated — dropped by caller)". -/
inductive PacketReceived where
  | Complete (n : Nat) : PacketReceived
  | Partial : PacketReceived
deriving DecidableEq, Repr

/-- Modelled from the spec: `SocketOptions` is declared outside the given
sources; per the spec, "`options` carries receive-buffer and send-buffer size
hints". -/
structure SocketOptions where
  receiveBufferSize : Nat
  sendBufferSize : Nat
deriving DecidableEq, Repr

/-- The `ReadWrite<A, E>` socket of `src/read_write.rs`: an inbound deque of
datagrams written by the application, an outbound deque of datagrams sent by
the ENet host, and an optional injected error. -/
structure ReadWrite (A E : Type) where
  inbound : List (A × List Nat)
  outbound : List (A × List Nat)
  error : Option E
deriving DecidableEq, Repr

namespace ReadWrite

variable {A E : Type}

/-- `ReadWrite::new` / `Default::default`: both queues empty, no error. -/
def new : ReadWrite A E :=
  { inbound := [], outbound := [], error := none }

/-- `ReadWrite::write`: push a datagram at the back of the inbound deque. -/
def write (s : ReadWrite A E) (address : A) (buffer : List Nat) :
    ReadWrite A E :=
  { s with inbound := s.inbound ++ [(address, buffer)] }

/-- `ReadWrite::read`: pop the front of the outbound deque. -/
def read (s : ReadWrite A E) :
    Option (A × List Nat) × ReadWrite A E :=
  match s.outbound with
  | [] => (none, s)
  | p :: rest => (some p, { s with outbound := rest })

/-- `ReadWrite::error`: store an error to be surfaced by the next `receive`.
(The method is named `error` in the source; the name is taken here by the
structure field it writes to.) -/
def raiseError (s : ReadWrite A E) (e : E) : ReadWrite A E :=
  { s with error := some e }

/-- `Socket::init` for `ReadWrite`: always `Ok(())`, state untouched. -/
def init (s : ReadWrite A E) (_socket_options : SocketOptions) :
    Except E Unit × ReadWrite A E :=
  (Except.ok (), s)

/-- `Socket::send` for `ReadWrite`: push the datagram at the back of the
outbound deque and report the full length as sent. -/
def send (s : ReadWrite A E) (address : A) (buffer : List Nat) :
    Except E Nat × ReadWrite A E :=
  (Except.ok buffer.length,
   { s with outbound := s.outbound ++ [(address, buffer)] })

/-- `Socket::receive` for `ReadWrite`.  Returns the Rust result, the updated
socket state, and the updated caller buffer.  An injected error is taken
(`self.error.take()`) and returned first; otherwise the front inbound datagram
is popped; if it fits in `MTU_MAX` it is copied over the front of the caller's
buffer and reported as `Complete(len)`, otherwise `Ok(None)` is returned. -/
def receive (s : ReadWrite A E) (buffer : List Nat) :
    Except E (Option (A × PacketReceived)) × ReadWrite A E × List Nat :=
  match s.error with
  | some e => (Except.error e, { s with error := none }, buffer)
  | none =>
    match s.inbound with
    | [] => (Except.ok none, s, buffer)
    | (address, inbound) :: rest =>
      let bytes := inbound.length
      if bytes ≤ MTU_MAX then
        (Except.ok (some (address, PacketReceived.Complete bytes)),
         { s with inbound := rest },
         inbound ++ buffer.drop bytes)
      else
        (Except.ok none, { s with inbound := rest }, buffer)

end ReadWrite

section ReadWriteTheorems

variable {A E : Type}

/-- C1: if a `ReadWrite` socket has no injected error and the datagram `d`
(with `d.len() ≤ MTU_MAX`) from address `a` is at the front of its inbound
queue, `receive` pops it, returns `Ok(Some((a, PacketReceived::Complete(d.len()))))`,
and the first `d.len()` bytes of the caller's buffer equal `d`. -/
theorem receive_front_complete (s : ReadWrite A E) (a : A) (d : List Nat)
    (rest : List (A × List Nat)) (buf : List Nat)
    (he : s.error = none) (hq : s.inbound = (a, d) :: rest)
    (hlen : d.length ≤ MTU_MAX) :
    ReadWrite.receive s buf =
      (Except.ok (some (a, PacketReceived.Complete d.length)),
       { s with inbound := rest }, d ++ buf.drop d.length) ∧
    (ReadWrite.receive s buf).2.2.take d.length = d := by
  have hrec : ReadWrite.receive s buf =
      (Except.ok (some (a, PacketReceived.Complete d.length)),
       { s with inbound := rest }, d ++ buf.drop d.length) := by
    unfold ReadWrite.receive
    rw [he, hq]
    simp [hlen]
  refine ⟨hrec, ?_⟩
  rw [hrec]
  exact List.take_left d (buf.drop d.length)

/-- C1 witness at a concrete input. -/
theorem receive_front_complete_spot :
    (({ inbound := [(7, [1, 2, 3])], outbound := [], error := none } :
        ReadWrite Nat Nat).error = none) ∧
    ReadWrite.receive
        ({ inbound := [(7, [1, 2, 3])], outbound := [], error := none } :
          ReadWrite Nat Nat) [0, 0, 0, 0, 0] =
      (Except.ok (some (7, PacketReceived.Complete 3)),
       { inbound := [], outbound := [], error := none }, [1, 2, 3, 0, 0]) := by
  refine ⟨rfl, ?_⟩
  have h := receive_front_complete
    ({ inbound := [(7, [1, 2, 3])], outbound := [], error := none } :
      ReadWrite Nat Nat) 7 [1, 2, 3] [] [0, 0, 0, 0, 0] rfl rfl (by decide)
  exact h.1

/-- C3: with an injected error `e`, `receive` returns `Err(e)`, clears the
stored error, and leaves both queues and the caller buffer untouched; a
second `receive` on the resulting state can no longer return an error. -/
theorem receive_surfaces_error_once (s : ReadWrite A E) (e : E)
    (buf : List Nat) (he : s.error = some e) :
    ReadWrite.receive s buf =
      (Except.error e, { s with error := none }, buf) ∧
    ({ s with error := (none : Option E) }).inbound = s.inbound ∧
    ∀ (buf2 : List Nat) (e2 : E),
      (ReadWrite.receive { s with error := (none : Option E) } buf2).1 ≠
        Except.error e2 := by
  refine ⟨?_, rfl, ?_⟩
  · unfold ReadWrite.receive
    rw [he]
  · intro buf2 e2
    unfold ReadWrite.receive
    cases hq : ({ s with error := (none : Option E) }).inbound with
    | nil => simp
    | cons p rest =>
      obtain ⟨a2, d2⟩ := p
      by_cases hle : d2.length ≤ MTU_MAX <;> simp [hle]

/-- C3 witness at a concrete input. -/
theorem receive_surfaces_error_once_spot :
    ReadWrite.receive
        ({ inbound := [(1, [9])], outbound := [], error := some 5 } :
          ReadWrite Nat Nat) [0] =
      (Except.error 5,
       { inbound := [(1, [9])], outbound := [], error := none }, [0]) :=
  (receive_surfaces_error_once
    ({ inbound := [(1, [9])], outbound := [], error := some 5 } :
      ReadWrite Nat Nat) 5 [0] rfl).1

/-- C4: `send` never errors: it returns `Ok(b.len())` and appends `(a, b)` at
the tail of the outbound queue, from which `read` later retrieves it. -/
theorem send_ok_appends (s : ReadWrite A E) (a : A) (b : List Nat) :
    ReadWrite.send s a b =
      (Except.ok b.length,
       { s with outbound := s.outbound ++ [(a, b)] }) ∧
    ((ReadWrite.send s a b).2).outbound.getLast? = some (a, b) := by
  refine ⟨rfl, ?_⟩
  simp [ReadWrite.send]

/-- C5: with an empty inbound queue and no injected error, `receive` returns
`Ok(None)` and leaves the socket state and the caller buffer unchanged. -/
theorem receive_empty_none (s : ReadWrite A E) (buf : List Nat)
    (he : s.error = none) (hq : s.inbound = []) :
    ReadWrite.receive s buf = (Except.ok none, s, buf) := by
  unfold ReadWrite.receive
  rw [he, hq]

/-- C5 witness at a concrete input. -/
theorem receive_empty_none_spot :
    ReadWrite.receive
        ({ inbound := [], outbound := [(2, [8])], error := none } :
          ReadWrite Nat Nat) [0, 0] =
      (Except.ok none,
       { inbound := [], outbound := [(2, [8])], error := none }, [0, 0]) :=
  receive_empty_none
    ({ inbound := [], outbound := [(2, [8])], error := none } :
      ReadWrite Nat Nat) [0, 0] rfl rfl

/-- C9: `init` returns `Ok(())` for every options value and leaves the socket
state unchanged, so host construction over a `ReadWrite` socket never fails
with a socket-initialization error. -/
theorem init_never_fails (s : ReadWrite A E) (opts : SocketOptions) :
    ReadWrite.init s opts = (Except.ok (), s) :=
  rfl

end ReadWriteTheorems

section OversizedDatagram

variable {A E : Type}

/-- Behaviour of `receive` on an oversized front datagram, shared by the
statements below: the datagram is popped and `Ok(None)` is returned. -/
lemma receive_big_front (s : ReadWrite A E) (a : A) (d : List Nat)
    (rest : List (A × List Nat)) (buf : List Nat)
    (he : s.error = none) (hq : s.inbound = (a, d) :: rest)
    (hlen : MTU_MAX < d.length) :
    ReadWrite.receive s buf =
      (Except.ok none, { s with inbound := rest }, buf) := by
  unfold ReadWrite.receive
  rw [he, hq]
  simp [Nat.not_le.mpr hlen]

/-- C2 counterexample: at a concrete state whose front inbound datagram has
4097 bytes (> `MTU_MAX` = 4096), `ReadWrite::receive` returns `Ok(None)` and
silently drops the datagram; it does not report `PacketReceived::Partial`. -/
theorem receive_oversized_not_partial :
    ReadWrite.receive
        ({ inbound := [(0, List.replicate 4097 9)], outbound := [],
           error := none } : ReadWrite Nat Nat) [0] =
      (Except.ok none,
       { inbound := [], outbound := [], error := none }, [0]) ∧
    ∀ pr : PacketReceived,
      (ReadWrite.receive
          ({ inbound := [(0, List.replicate 4097 9)], outbound := [],
             error := none } : ReadWrite Nat Nat) [0]).1 ≠
        Except.ok (some (0, pr)) := by
  have h := receive_big_front
    ({ inbound := [(0, List.replicate 4097 9)], outbound := [],
       error := none } : ReadWrite Nat Nat) 0 (List.replicate 4097 9) [] [0]
    rfl rfl (by rw [List.length_replicate]; decide)
  refine ⟨h, ?_⟩
  intro pr
  rw [h]
  simp

/-- C2 amended: for every inbound datagram that does not fit the receive
buffer (length > `MTU_MAX`), `ReadWrite::receive` removes it from the inbound
queue and returns `Ok(None)`, silently dropping the datagram (it never
reports `PacketReceived::Partial`). -/
theorem receive_oversized_dropped (s : ReadWrite A E) (a : A) (d : List Nat)
    (rest : List (A × List Nat)) (buf : List Nat)
    (he : s.error = none) (hq : s.inbound = (a, d) :: rest)
    (hlen : MTU_MAX < d.length) :
    ReadWrite.receive s buf =
      (Except.ok none, { s with inbound := rest }, buf) :=
  receive_big_front s a d rest buf he hq hlen

/-- C2 witness at a concrete input. -/
theorem receive_oversized_dropped_spot :
    ReadWrite.receive
        ({ inbound := [(3, List.replicate 5000 1)], outbound := [],
           error := none } : ReadWrite Nat Nat) [0] =
      (Except.ok none,
       { inbound := [], outbound := [], error := none }, [0]) :=
  receive_oversized_dropped
    ({ inbound := [(3, List.replicate 5000 1)], outbound := [],
       error := none } : ReadWrite Nat Nat) 3 (List.replicate 5000 1) [] [0]
    rfl rfl (by rw [List.length_replicate]; decide)

end OversizedDatagram

namespace ReadWrite

variable {A E : Type}

/-- Apply a sequence of `write` calls in order. -/
def writeAll (s : ReadWrite A E) (ds : List (A × List Nat)) :
    ReadWrite A E :=
  ds.foldl (fun t p => write t p.1 p.2) s

/-- Apply a sequence of `send` calls in order (discarding the `Ok` results). -/
def sendAll (s : ReadWrite A E) (ps : List (A × List Nat)) :
    ReadWrite A E :=
  ps.foldl (fun t p => (send t p.1 p.2).2) s

/-- Call `receive` up to `n` times, collecting for each `Complete(k)` result
the source address and the first `k` bytes of the buffer, and stopping at the
first call that yields no completed datagram. -/
def receiveSteps : Nat → ReadWrite A E → List Nat → List (A × List Nat)
  | 0, _, _ => []
  | Nat.succ n, s, buf =>
    match receive s buf with
    | (Except.ok (some (a, PacketReceived.Complete k)), s2, buf2) =>
      (a, buf2.take k) :: receiveSteps n s2 buf2
    | _ => []

/-- Drain the inbound queue through `receive`. -/
def receiveAll (s : ReadWrite A E) (buf : List Nat) :
    List (A × List Nat) :=
  receiveSteps s.inbound.length s buf

/-- Call `read` up to `n` times, stopping at the first `None`. -/
def readSteps : Nat → ReadWrite A E → List (A × List Nat)
  | 0, _ => []
  | Nat.succ n, s =>
    match read s with
    | (some p, s2) => p :: readSteps n s2
    | (none, _) => []

/-- Drain the outbound queue through `read`. -/
def readAll (s : ReadWrite A E) : List (A × List Nat) :=
  readSteps s.outbound.length s

lemma writeAll_inbound (s : ReadWrite A E) (ds : List (A × List Nat)) :
    (writeAll s ds).inbound = s.inbound ++ ds := by
  induction ds generalizing s with
  | nil => simp [writeAll]
  | cons d tl ih =>
    simp only [writeAll, List.foldl_cons] at *
    rw [ih]
    simp [write]

lemma writeAll_error (s : ReadWrite A E) (ds : List (A × List Nat)) :
    (writeAll s ds).error = s.error := by
  induction ds generalizing s with
  | nil => rfl
  | cons d tl ih =>
    simp only [writeAll, List.foldl_cons] at *
    rw [ih]
    simp [write]

lemma sendAll_outbound (s : ReadWrite A E) (ps : List (A × List Nat)) :
    (sendAll s ps).outbound = s.outbound ++ ps := by
  induction ps generalizing s with
  | nil => simp [sendAll]
  | cons d tl ih =>
    simp only [sendAll, List.foldl_cons] at *
    rw [ih]
    simp [send]

lemma receiveSteps_drains (n : Nat) (s : ReadWrite A E) (buf : List Nat)
    (he : s.error = none) (hn : s.inbound.length = n)
    (hfit : ∀ p ∈ s.inbound, (p.2 : List Nat).length ≤ MTU_MAX) :
    receiveSteps n s buf = s.inbound := by
  induction n generalizing s buf with
  | zero =>
    rw [List.length_eq_zero] at hn
    simp [receiveSteps, hn]
  | succ n ih =>
    match hq : s.inbound with
    | [] => rw [hq] at hn; simp at hn
    | (a, d) :: rest =>
      have hd : d.length ≤ MTU_MAX := hfit (a, d) (by rw [hq]; exact List.mem_cons_self _ _)
      have hrec : receive s buf =
          (Except.ok (some (a, PacketReceived.Complete d.length)),
           { s with inbound := rest }, d ++ buf.drop d.length) := by
        unfold receive
        rw [he, hq]
        simp [hd]
      rw [receiveSteps, hrec]
      dsimp only
      have htl : receiveSteps n ({ s with inbound := rest } : ReadWrite A E)
          (d ++ buf.drop d.length) = rest := by
        refine ih { s with inbound := rest } (d ++ buf.drop d.length) he ?_ ?_
        · rw [hq] at hn
          simpa using hn
        · intro p hp
          exact hfit p (by rw [hq]; exact List.mem_cons_of_mem _ hp)
      rw [htl, List.take_left]

lemma readSteps_drains (n : Nat) (s : ReadWrite A E)
    (hn : s.outbound.length = n) :
    readSteps n s = s.outbound := by
  induction n generalizing s with
  | zero =>
    rw [List.length_eq_zero] at hn
    simp [readSteps, hn]
  | succ n ih =>
    match hq : s.outbound with
    | [] => rw [hq] at hn; simp at hn
    | p :: rest =>
      have hrd : read s = (some p, { s with outbound := rest }) := by
        unfold read
        rw [hq]
      rw [readSteps, hrd]
      dsimp only
      have htl : readSteps n ({ s with outbound := rest } : ReadWrite A E) = rest := by
        refine ih { s with outbound := rest } ?_
        rw [hq] at hn
        simpa using hn
      rw [htl]

end ReadWrite

/-- C8: the queues are FIFO and consume-once.  Writing the datagrams `ds`
(each fitting `MTU_MAX`) to a fresh socket and then draining `receive` yields
exactly `ds`, in write order with each datagram delivered once; symmetrically,
sending `ps` to a fresh socket and draining `read` yields exactly `ps`. -/
theorem queues_fifo_consume_once (ds ps : List (Nat × List Nat))
    (buf : List Nat)
    (hfit : ∀ p ∈ ds, (p.2 : List Nat).length ≤ MTU_MAX) :
    ReadWrite.receiveAll (ReadWrite.writeAll (ReadWrite.new : ReadWrite Nat Nat) ds) buf = ds ∧
    ReadWrite.readAll (ReadWrite.sendAll (ReadWrite.new : ReadWrite Nat Nat) ps) = ps := by
  constructor
  · unfold ReadWrite.receiveAll
    have hin : (ReadWrite.writeAll (ReadWrite.new : ReadWrite Nat Nat) ds).inbound = ds := by
      rw [ReadWrite.writeAll_inbound]
      rfl
    refine Eq.trans ?_ hin
    refine ReadWrite.receiveSteps_drains _ _ buf ?_ (by rw [hin]) ?_
    · rw [ReadWrite.writeAll_error]
      rfl
    · rw [hin]
      exact hfit
  · unfold ReadWrite.readAll
    have hout : (ReadWrite.sendAll (ReadWrite.new : ReadWrite Nat Nat) ps).outbound = ps := by
      rw [ReadWrite.sendAll_outbound]
      rfl
    refine Eq.trans ?_ hout
    exact ReadWrite.readSteps_drains _ _ (by rw [hout])

/-- C8 witness at a concrete input. -/
theorem queues_fifo_consume_once_spot :
    ReadWrite.receiveAll
        (ReadWrite.writeAll (ReadWrite.new : ReadWrite Nat Nat)
          [(1, [10, 11]), (2, [20]), (1, [30, 31, 32])]) [0, 0, 0, 0] =
      [(1, [10, 11]), (2, [20]), (1, [30, 31, 32])] ∧
    ReadWrite.readAll
        (ReadWrite.sendAll (ReadWrite.new : ReadWrite Nat Nat)
          [(5, [1]), (5, [2])]) = [(5, [1]), (5, [2])] :=
  queues_fifo_consume_once
    [(1, [10, 11]), (2, [20]), (1, [30, 31, 32])] [(5, [1]), (5, [2])]
    [0, 0, 0, 0] (by decide)

/-- Modelled from the spec: `PeerID` is declared outside the given sources;
per the spec it is "a small integer index into the host's peer table". -/
abbrev PeerID := Nat

/-- Modelled from the spec: `Peer` is declared outside the given sources.
Only its stable identifier and some per-connection state matter here; per the
spec a peer carries a state machine and RTT state, and `id()` returns its
`PeerID`. -/
structure Peer where
  id : PeerID
  rtt : Nat
  connectID : Nat
deriving DecidableEq, Repr

/-- Modelled from the spec: `Packet` is declared outside the given sources;
per the spec it is an "immutable payload with flags". -/
structure Packet where
  data : List Nat
  reliable : Bool
  unsequenced : Bool
deriving DecidableEq, Repr

/-- The `Event` enum of `src/event.rs`: an ENet event returned by
`Host::service`, carrying a reference to the peer that generated it. -/
inductive Event where
  | Connect (peer : Peer) (data : Nat) : Event
  | Disconnect (peer : Peer) (data : Nat) : Event
  | Receive (peer : Peer) (channel_id : Nat) (packet : Packet) : Event
deriving DecidableEq, Repr

/-- The `EventNoRef` enum of `src/event.rs`: like `Event`, but holding the
peer's `PeerID` instead of a peer reference. -/
inductive EventNoRef where
  | Connect (peer : PeerID) (data : Nat) : EventNoRef
  | Disconnect (peer : PeerID) (data : Nat) : EventNoRef
  | Receive (peer : PeerID) (channel_id : Nat) (packet : Packet) : EventNoRef
deriving DecidableEq, Repr

/-- `Event::no_ref` of `src/event.rs`: convert an `Event` into an
`EventNoRef` by replacing the peer reference with `peer.id()`. -/
def Event.no_ref : Event → EventNoRef
  | Event.Connect peer data => EventNoRef.Connect peer.id data
  | Event.Disconnect peer data => EventNoRef.Disconnect peer.id data
  | Event.Receive peer channel_id packet =>
    EventNoRef.Receive peer.id channel_id packet

/-- C10: `Event::no_ref` maps each variant to the same variant of
`EventNoRef`, preserving `data`, `channel_id` and `packet`, and replacing the
peer reference by exactly `peer.id()`. -/
theorem no_ref_preserves_payload (p : Peer) (d : Nat) (c : Nat)
    (pkt : Packet) :
    Event.no_ref (Event.Connect p d) = EventNoRef.Connect p.id d ∧
    Event.no_ref (Event.Disconnect p d) = EventNoRef.Disconnect p.id d ∧
    Event.no_ref (Event.Receive p c pkt) = EventNoRef.Receive p.id c pkt :=
  ⟨rfl, rfl, rfl⟩

/-- The three kinds of per-peer events `Host::service` can dispatch,
matching the variants of `Event`. -/
inductive PeerEvent where
  | connect : PeerEvent
  | receive : PeerEvent
  | disconnect : PeerEvent
deriving DecidableEq, Repr

/-- Modelled from the spec: the phases of a peer slot as seen through the
events `Host::service` dispatches for it.  Per the spec's state machine, the
`Connect` event is dispatched when the handshake completes (the peer becomes
`Connected`), `Receive` events are dispatched only while connected, and the
`Disconnect` event is dispatched when the peer is torn down. -/
inductive PeerPhase where
  | pending : PeerPhase
  | connected : PeerPhase
  | done : PeerPhase
deriving DecidableEq, Repr

/-- Modelled from the spec: a single event dispatch for one peer, with the
phase change it implies. -/
inductive DispatchStep : PeerPhase → PeerEvent → PeerPhase → Prop
  | connect : DispatchStep PeerPhase.pending PeerEvent.connect PeerPhase.connected
  | receive : DispatchStep PeerPhase.connected PeerEvent.receive PeerPhase.connected
  | disconnect :
      DispatchStep PeerPhase.connected PeerEvent.disconnect PeerPhase.done

/-- The sequence of events `Host::service` dispatches for one peer, as the
reflexive-transitive closure of `DispatchStep`. -/
inductive DispatchTrace : PeerPhase → List PeerEvent → PeerPhase → Prop
  | nil (p : PeerPhase) : DispatchTrace p [] p
  | cons {p q r : PeerPhase} {e : PeerEvent} {es : List PeerEvent} :
      DispatchStep p e q → DispatchTrace q es r → DispatchTrace p (e :: es) r

lemma DispatchStep.target_ne_pending {p q : PeerPhase} {e : PeerEvent}
    (h : DispatchStep p e q) : q ≠ PeerPhase.pending := by
  cases h <;> simp

lemma DispatchTrace.done_nil {es : List PeerEvent} {r : PeerPhase}
    (h : DispatchTrace PeerPhase.done es r) : es = [] := by
  cases h with
  | nil => rfl
  | cons st _ => cases st

lemma DispatchTrace.no_connect {p : PeerPhase} {es : List PeerEvent}
    {r : PeerPhase} (h : DispatchTrace p es r)
    (hp : p ≠ PeerPhase.pending) : PeerEvent.connect ∉ es := by
  induction h with
  | nil => simp
  | cons st tl ih =>
    intro hmem
    rcases List.mem_cons.mp hmem with heq | hmem2
    · subst heq
      cases st
      exact hp rfl
    · exact ih (DispatchStep.target_ne_pending st) hmem2

lemma DispatchTrace.receive_before_disconnect {es : List PeerEvent}
    {r : PeerPhase} (h : DispatchTrace PeerPhase.connected es r)
    (i j : Nat) (hi : es.get? i = some PeerEvent.receive)
    (hj : es.get? j = some PeerEvent.disconnect) : i < j := by
  induction es generalizing i j with
  | nil => simp at hi
  | cons e tl ih =>
    cases h with
    | cons st htl =>
      cases st with
      | receive =>
        match j with
        | 0 => simp at hj
        | Nat.succ j2 =>
          match i with
          | 0 => exact Nat.succ_pos j2
          | Nat.succ i2 =>
            have := ih htl i2 j2 (by simpa using hi) (by simpa using hj)
            exact Nat.succ_lt_succ this
      | disconnect =>
        have htnil : tl = [] := DispatchTrace.done_nil htl
        subst htnil
        match i with
        | 0 => simp at hi
        | Nat.succ i2 => simp at hi

/-- C6: in any sequence of events `Host::service` dispatches for one peer
(a `DispatchTrace` from the initial phase), the `Connect` event precedes
every `Receive` event, every `Receive` event precedes the `Disconnect`
event, and `Connect` precedes `Disconnect`. -/
theorem service_event_order (es : List PeerEvent) (r : PeerPhase)
    (h : DispatchTrace PeerPhase.pending es r) (i j : Nat) :
    (es.get? i = some PeerEvent.connect →
      es.get? j = some PeerEvent.receive → i < j) ∧
    (es.get? i = some PeerEvent.receive →
      es.get? j = some PeerEvent.disconnect → i < j) ∧
    (es.get? i = some PeerEvent.connect →
      es.get? j = some PeerEvent.disconnect → i < j) := by
  cases h with
  | nil =>
    refine ⟨?_, ?_, ?_⟩ <;> intro hi <;> simp at hi
  | cons st htl =>
    rename_i q e tl
    cases st with
    | connect =>
      have hconn : ∀ k : Nat, (PeerEvent.connect :: tl).get? k =
          some PeerEvent.connect → k = 0 := by
        intro k hk
        match k with
        | 0 => rfl
        | Nat.succ k2 =>
          exfalso
          have hmem : PeerEvent.connect ∈ tl :=
            List.get?_mem (by simpa using hk)
          exact DispatchTrace.no_connect htl (by simp) hmem
      refine ⟨?_, ?_, ?_⟩
      · intro hi hj
        have hi0 : i = 0 := hconn i hi
        subst hi0
        match j with
        | 0 => simp at hj
        | Nat.succ j2 => exact Nat.succ_pos j2
      · intro hi hj
        match i, j with
        | 0, _ => simp at hi
        | _, 0 => simp at hj
        | Nat.succ i2, Nat.succ j2 =>
          have := DispatchTrace.receive_before_disconnect htl i2 j2
            (by simpa using hi) (by simpa using hj)
          exact Nat.succ_lt_succ this
      · intro hi hj
        have hi0 : i = 0 := hconn i hi
        subst hi0
        match j with
        | 0 => simp at hj
        | Nat.succ j2 => exact Nat.succ_pos j2

/-- C6 witness: the theorem applied to the concrete trace
`[connect, receive, disconnect]`. -/
theorem service_event_order_spot : (0 : Nat) < 1 ∧ (1 : Nat) < 2 := by
  have htrace : DispatchTrace PeerPhase.pending
      [PeerEvent.connect, PeerEvent.receive, PeerEvent.disconnect]
      PeerPhase.done :=
    DispatchTrace.cons DispatchStep.connect
      (DispatchTrace.cons DispatchStep.receive
        (DispatchTrace.cons DispatchStep.disconnect
          (DispatchTrace.nil PeerPhase.done)))
  refine ⟨(service_event_order _ _ htrace 0 1).1 rfl rfl, ?_⟩
  exact (service_event_order _ _ htrace 1 2).2.1 rfl rfl

/-- Modelled from the spec: the event-dispatch face of the host, which is
declared outside the given sources.  Per the spec's `service` loop, each
invocation returns "one pending event from any peer" or none; the model keeps
the host's queue of pending dispatch events. -/
structure HostModel where
  pending : List EventNoRef
deriving DecidableEq, Repr

/-- Modelled from the spec: one `Host::service` invocation returns at most
one event — the next pending dispatch event if any — and never blocks. -/
def HostModel.service (h : HostModel) : Option EventNoRef × HostModel :=
  match h.pending with
  | [] => (none, h)
  | e :: rest => (some e, HostModel.mk rest)

/-- Call `service` up to `n` times, collecting events, stopping at `None`
(the caller's `while let Some(event) = host.service()` loop of
`examples/server.rs`). -/
def serviceSteps : Nat → HostModel → List EventNoRef
  | 0, _ => []
  | Nat.succ n, h =>
    match HostModel.service h with
    | (some e, h2) => e :: serviceSteps n h2
    | (none, _) => []

/-- Loop on `service` until it returns `None`, collecting the events. -/
def drainEvents (h : HostModel) : List EventNoRef :=
  serviceSteps h.pending.length h

lemma serviceSteps_drains (n : Nat) (h : HostModel)
    (hn : h.pending.length = n) : serviceSteps n h = h.pending := by
  induction n generalizing h with
  | zero =>
    rw [List.length_eq_zero] at hn
    simp [serviceSteps, hn]
  | succ n ih =>
    match hq : h.pending with
    | [] => rw [hq] at hn; simp at hn
    | e :: rest =>
      have hsv : HostModel.service h = (some e, HostModel.mk rest) := by
        unfold HostModel.service
        rw [hq]
      rw [serviceSteps, hsv]
      dsimp only
      rw [ih (HostModel.mk rest) (by rw [hq] at hn; simpa using hn)]

/-- C7: `service` returns at most one event per invocation — `None` on an
empty pending queue, otherwise exactly the first pending event — and looping
until `None` (as the example server does) yields all pending events. -/
theorem service_at_most_one_event (h : HostModel) :
    drainEvents h = h.pending ∧
    (h.pending = [] → HostModel.service h = (none, h)) ∧
    ∀ (e : EventNoRef) (rest : List EventNoRef),
      h.pending = e :: rest →
      HostModel.service h = (some e, HostModel.mk rest) := by
  refine ⟨serviceSteps_drains h.pending.length h rfl, ?_, ?_⟩
  · intro hq
    unfold HostModel.service
    rw [hq]
  · intro e rest hq
    unfold HostModel.service
    rw [hq]

/-- C7 witness at a concrete input. -/
theorem service_at_most_one_event_spot :
    drainEvents
        (HostModel.mk [EventNoRef.Connect 0 7, EventNoRef.Disconnect 0 0]) =
      [EventNoRef.Connect 0 7, EventNoRef.Disconnect 0 0] ∧
    HostModel.service
        (HostModel.mk [EventNoRef.Connect 0 7, EventNoRef.Disconnect 0 0]) =
      (some (EventNoRef.Connect 0 7),
       HostModel.mk [EventNoRef.Disconnect 0 0]) := by
  have h := service_at_most_one_event
    (HostModel.mk [EventNoRef.Connect 0 7, EventNoRef.Disconnect 0 0])
  exact ⟨h.1, h.2.2 (EventNoRef.Connect 0 7) [EventNoRef.Disconnect 0 0] rfl⟩
